import Mathlib

/-!
# Verification of `update-image-references.py`

Shallow embedding of the OJP e-book image-reference updater.  The script's
whole behaviour is a single regular-expression substitution

  `\*\*\[IMAGE PROMPT (\d+)\]\*\*:([^\n]+(?:\n(?!\n|##|\*\*\[)[^\n]+)*)`

performed by `re.subn` with a replacement function `replace_prompt`, plus a
thin driver (`main`) looping over the `*.md` files of the e-book directory.

Text is modelled as `List Char` (Python `str` is a sequence of code points).
The regex machinery for this concrete pattern is deterministic (every
quantifier is greedy and the element that follows it can never begin with a
character the quantifier consumes), so it is embedded as a direct scanner:
`tryMatch` attempts the pattern at one position, `scanF` performs the
leftmost non-overlapping scan of `re.subn`.  Character classes `\d` and
`str.strip` are modelled on their ASCII behaviour, which is what the
repository's markdown exercises.
-/

set_option maxRecDepth 10000

namespace ImgRef

/-- `startsL pat cs` : `cs` begins with the literal `pat`. -/
def startsL : List Char → List Char → Bool
  | [], _ => true
  | _ :: _, [] => false
  | p :: ps, c :: cs => p == c && startsL ps cs

/-- Python's `tok in s` substring containment test. -/
def hasSub (pat : List Char) : List Char → Bool
  | [] => startsL pat []
  | c :: cs => startsL pat (c :: cs) || hasSub pat cs

/-- Consume the literal `pat` from the front of `cs`, or fail. -/
def dropLit : List Char → List Char → Option (List Char)
  | [], cs => some cs
  | _ :: _, [] => none
  | p :: ps, c :: cs => if p == c then dropLit ps cs else none

/-- Split off the maximal newline-free run: the greedy `[^\n]+`/`[^\n]*`. -/
def splitLine : List Char → List Char × List Char
  | [] => ([], [])
  | c :: cs =>
    if c == '\n' then ([], c :: cs)
    else
      let r := splitLine cs
      (c :: r.1, r.2)

/-- Split off the maximal run of digits: the greedy `\d+`/`\d*`. -/
def digitSpan : List Char → List Char × List Char
  | [] => ([], [])
  | c :: cs =>
    if c.isDigit then
      let r := digitSpan cs
      (c :: r.1, r.2)
    else ([], c :: cs)

/-- The text just after a consumed `\n` allows one more continuation line:
the negative lookahead `(?!\n|##|\*\*\[)` must pass and `[^\n]+` must be
able to consume at least one character. -/
def contOk : List Char → Bool
  | [] => false
  | c :: cs =>
    !(c == '\n') && !(startsL ['#', '#'] (c :: cs))
      && !(startsL ['*', '*', '['] (c :: cs))

/-- Fuelled greedy loop for `(?:\n(?!\n|##|\*\*\[)[^\n]+)*`: returns the
captured continuation text and the unconsumed remainder.  Each successful
iteration consumes at least two characters, so fuel `cs.length` suffices. -/
def captureF : Nat → List Char → List Char × List Char
  | 0, cs => ([], cs)
  | Nat.succ fuel, cs =>
    match cs with
    | [] => ([], [])
    | c :: rest =>
      if c == '\n' && contOk rest then
        let l := splitLine rest
        let m := captureF fuel l.2
        (c :: (l.1 ++ m.1), m.2)
      else ([], c :: rest)

/-- The continuation-line capture loop of the pattern. -/
def capture (cs : List Char) : List Char × List Char :=
  captureF cs.length cs

/-- The literal `\*\*\[IMAGE PROMPT ` opening the pattern. -/
def markerLit : List Char :=
  ['*', '*', '[', 'I', 'M', 'A', 'G', 'E', ' ', 'P', 'R', 'O', 'M', 'P', 'T', ' ']

/-- The literal `\]\*\*:` closing the marker head. -/
def closeLit : List Char := [']', '*', '*', ':']

/-- Attempt the whole pattern at the head of `cs`.  On success returns
(group 1 = the digit string, group 2 = the raw description, the remainder
of the input after the match). -/
def tryMatch (cs : List Char) : Option (List Char × List Char × List Char) :=
  match dropLit markerLit cs with
  | none => none
  | some r1 =>
    let d := digitSpan r1
    if d.1.isEmpty then none
    else
      match dropLit closeLit d.2 with
      | none => none
      | some r3 =>
        let l := splitLine r3
        if l.1.isEmpty then none
        else
          let m := capture l.2
          some (d.1, l.1 ++ m.1, m.2)

/-- ASCII view of the whitespace stripped by Python's `str.strip()`. -/
def isPySpace (c : Char) : Bool :=
  c == ' ' || c == '\t' || c == '\n' || c == '\r' || c == '\x0b' || c == '\x0c'

/-- Python `str.strip()`. -/
def pyStrip (cs : List Char) : List Char :=
  ((cs.dropWhile isPySpace).reverse.dropWhile isPySpace).reverse

/-- Python `str.replace(a, b)` for one-character `a` and `b`. -/
def replChar (a b : Char) (cs : List Char) : List Char :=
  cs.map fun c => if c == a then b else c

/-- `prompt_text[:100].replace('\n', ' ').replace('"', "'")` applied to the
already-stripped description. -/
def altText (ptext : List Char) : List Char :=
  replChar '\"' '\'' (replChar '\n' ' ' (ptext.take 100))

/-- The `if/elif` chain of `replace_prompt` choosing the image subdirectory
from the chapter name (Python substring containment, first match wins). -/
def classify (stem : List Char) : List Char :=
  if hasSub "part1".toList stem || hasSub "chapter1".toList stem
      || hasSub "chapter2".toList stem || hasSub "chapter3".toList stem then
    "part1-foundation".toList
  else if hasSub "part2".toList stem || hasSub "chapter4".toList stem
      || hasSub "chapter5".toList stem || hasSub "chapter6".toList stem
      || hasSub "chapter7".toList stem then
    "part2-configuration".toList
  else if hasSub "part3".toList stem || hasSub "chapter8".toList stem
      || hasSub "chapter9".toList stem || hasSub "chapter10".toList stem
      || hasSub "chapter11".toList stem || hasSub "chapter12".toList stem then
    "part3-advanced".toList
  else if hasSub "part4".toList stem || hasSub "chapter13".toList stem
      || hasSub "chapter14".toList stem then
    "part4-operations".toList
  else if hasSub "part5".toList stem || hasSub "chapter15".toList stem
      || hasSub "chapter16".toList stem || hasSub "chapter17".toList stem
      || hasSub "chapter18".toList stem then
    "part5-development".toList
  else if hasSub "part6".toList stem || hasSub "chapter19".toList stem
      || hasSub "chapter20".toList stem then
    "part6-analysis".toList
  else if hasSub "part7".toList stem || hasSub "chapter21".toList stem
      || hasSub "chapter22".toList stem then
    "part7-vision".toList
  else if hasSub "appendix".toList stem then
    "appendices".toList
  else
    "images".toList

/-- `replace_prompt`: build the replacement block for one match, given the
file stem, group 1 (`prompt_num`) and group 2 (the raw description). -/
def replacement (stem num desc : List Char) : List Char :=
  let ptext := pyStrip desc
  let subdir := classify stem
  let imagePath :=
    "images/".toList ++ subdir ++ "/".toList ++ stem ++ "-".toList ++ num
      ++ ".png".toList
  let alt := altText ptext
  "![".toList ++ alt ++ "](".toList ++ imagePath ++ ")\n\n*Figure ".toList
    ++ num ++ ": ".toList ++ alt ++ "...*".toList

/-- Fuelled `re.subn` scan: leftmost non-overlapping matches, each replaced
by `replacement`; a failed position emits its character and moves on by one.
A match consumes at least one character, so fuel `cs.length` suffices. -/
def scanF (stem : List Char) : Nat → List Char → List Char × Nat
  | 0, cs => (cs, 0)
  | Nat.succ _, [] => ([], 0)
  | Nat.succ fuel, c :: cs =>
    match tryMatch (c :: cs) with
    | some (num, desc, rest) =>
      let r := scanF stem fuel rest
      (replacement stem num desc ++ r.1, r.2 + 1)
    | none =>
      let r := scanF stem fuel cs
      (c :: r.1, r.2)

/-- `re.subn(pattern, replace_prompt, content)` : the updated content and
the substitution count. -/
def scan (stem cs : List Char) : List Char × Nat :=
  scanF stem cs.length cs

/-! ## Basic lemmas on the splitting helpers -/

/-- `t` is empty or begins with a newline: the shape of any remainder left
by the greedy `[^\n]+`. -/
def nlHead (t : List Char) : Prop := t = [] ∨ ∃ u, t = '\n' :: u

/-- A candidate continuation line, as the spec words it: non-blank, not
beginning a heading `##`, not beginning a new marker `**[`. -/
def goodLine (l : List Char) : Bool :=
  !l.isEmpty && !(startsL ['#', '#'] l) && !(startsL ['*', '*', '['] l)

theorem dropLit_append (p r : List Char) : dropLit p (p ++ r) = some r := by
  induction p with
  | nil => rfl
  | cons c cs ih => simp [dropLit, ih]

theorem dropLit_eq_some {p cs r : List Char} (h : dropLit p cs = some r) :
    cs = p ++ r := by
  induction p generalizing cs with
  | nil => simpa [dropLit] using h
  | cons a as ih =>
    cases cs with
    | nil => simp [dropLit] at h
    | cons c cs' =>
      by_cases hac : a == c
      · have := ih (by simpa [dropLit, hac] using h)
        simp_all [List.cons_append]
      · simp [dropLit, hac] at h

theorem splitLine_append {l r : List Char} (hl : '\n' ∉ l) (hr : nlHead r) :
    splitLine (l ++ r) = (l, r) := by
  induction l with
  | nil =>
    rcases hr with h | ⟨u, h⟩ <;> subst h <;> simp [splitLine]
  | cons c cs ih =>
    have hc : ¬ c = '\n' := fun h => hl (h ▸ List.mem_cons_self c cs)
    have : (c == '\n') = false := by simpa using hc
    simp [splitLine, this, ih (fun h => hl (List.mem_cons_of_mem c h))]

theorem splitLine_spec (cs : List Char) :
    cs = (splitLine cs).1 ++ (splitLine cs).2 ∧ '\n' ∉ (splitLine cs).1 ∧
      nlHead (splitLine cs).2 := by
  induction cs with
  | nil => simp [splitLine, nlHead]
  | cons c cs ih =>
    by_cases hc : c == '\n'
    · refine ⟨by simp [splitLine, hc], by simp [splitLine, hc], ?_⟩
      exact Or.inr ⟨cs, by simp [splitLine, hc, beq_iff_eq.mp hc]⟩
    · refine ⟨by simpa [splitLine, hc] using ih.1, ?_, by simpa [splitLine, hc] using ih.2.2⟩
      intro hmem
      rcases List.mem_cons.mp (by simpa [splitLine, hc] using hmem) with h | h
      · exact (show ¬ c = '\n' by simpa using hc) h.symm
      · exact ih.2.1 h

theorem digitSpan_append {d r : List Char} (hd : ∀ c ∈ d, c.isDigit = true)
    (hr : ∀ c t, r = c :: t → c.isDigit = false) :
    digitSpan (d ++ r) = (d, r) := by
  induction d with
  | nil =>
    cases r with
    | nil => rfl
    | cons c t => simp [digitSpan, hr c t rfl]
  | cons a as ih =>
    have ha : a.isDigit = true := hd a (List.mem_cons_self a as)
    simp [digitSpan, ha, ih (fun c hc => hd c (List.mem_cons_of_mem a hc))]

theorem digitSpan_spec (cs : List Char) :
    cs = (digitSpan cs).1 ++ (digitSpan cs).2 ∧
      (∀ c ∈ (digitSpan cs).1, c.isDigit = true) := by
  induction cs with
  | nil => simp [digitSpan]
  | cons c cs ih =>
    by_cases hc : c.isDigit
    · refine ⟨by simpa [digitSpan, hc] using ih.1, ?_⟩
      intro x hx
      rcases List.mem_cons.mp (by simpa [digitSpan, hc] using hx) with h | h
      · exact h ▸ hc
      · exact ih.2 x h
    · simp [digitSpan, hc]

/-- A pattern free of newlines can not match across the boundary between a
newline-free chunk and a remainder that is empty or newline-headed. -/
theorem startsL_append_nl {pat l t : List Char} (hp : '\n' ∉ pat)
    (hl : '\n' ∉ l) (ht : nlHead t) : startsL pat (l ++ t) = startsL pat l := by
  induction pat generalizing l with
  | nil => simp [startsL]
  | cons p ps ih =>
    cases l with
    | nil =>
      rcases ht with h | ⟨u, h⟩ <;> subst h
      · rfl
      · have hp' : ¬ p = '\n' := fun h => hp (h ▸ List.mem_cons_self p ps)
        have : (p == '\n') = false := by simpa using hp'
        simp [startsL, this]
    | cons c cs =>
      simp only [List.cons_append, startsL]
      by_cases hpc : p == c
      · simp [hpc, ih (fun h => hp (List.mem_cons_of_mem p h))
          (fun h => hl (List.mem_cons_of_mem c h))]
      · simp [hpc]

theorem contOk_append {l t : List Char} (hl : '\n' ∉ l) (ht : nlHead t) :
    contOk (l ++ t) = goodLine l := by
  cases l with
  | nil =>
    rcases ht with h | ⟨u, h⟩ <;> subst h <;> simp [contOk, goodLine, startsL]
  | cons c cs =>
    have hc : ¬ c = '\n' := fun h => hl (h ▸ List.mem_cons_self c cs)
    have hcb : (c == '\n') = false := by simpa using hc
    have h1 : startsL ['#', '#'] ((c :: cs) ++ t) = startsL ['#', '#'] (c :: cs) :=
      startsL_append_nl (by decide) hl ht
    have h2 : startsL ['*', '*', '['] ((c :: cs) ++ t) = startsL ['*', '*', '['] (c :: cs) :=
      startsL_append_nl (by decide) hl ht
    simp only [List.cons_append] at h1 h2
    simp [contOk, goodLine, hcb, h1, h2]

/-! ## The capture loop -/

theorem splitLine_snd_le (cs : List Char) : (splitLine cs).2.length ≤ cs.length := by
  induction cs with
  | nil => simp [splitLine]
  | cons c cs ih =>
    by_cases hc : c == '\n'
    · simp [splitLine, hc]
    · simp only [splitLine, hc, Bool.false_eq_true, if_false]
      exact Nat.le_succ_of_le ih

theorem splitLine_snd_lt {cs : List Char} (h : contOk cs = true) :
    (splitLine cs).2.length < cs.length := by
  cases cs with
  | nil => simp [contOk] at h
  | cons c cs' =>
    have hc : (c == '\n') = false := by
      cases hx : c == '\n'
      · rfl
      · simp [contOk, hx] at h
    simp only [splitLine, hc, Bool.false_eq_true, if_false]
    exact Nat.lt_succ_of_le (splitLine_snd_le cs')

theorem captureF_congr {f f' : Nat} {cs : List Char} (h : cs.length ≤ f)
    (h' : cs.length ≤ f') : captureF f cs = captureF f' cs := by
  induction f generalizing f' cs with
  | zero =>
    have : cs = [] := List.length_eq_zero.mp (Nat.le_zero.mp h)
    subst this
    cases f' <;> simp [captureF]
  | succ g ih =>
    cases f' with
    | zero =>
      have : cs = [] := List.length_eq_zero.mp (Nat.le_zero.mp h')
      subst this; simp [captureF]
    | succ g' =>
      cases cs with
      | nil => simp [captureF]
      | cons c rest =>
        simp only [captureF]
        cases hc : (c == '\n' && contOk rest) with
        | false => simp [hc]
        | true =>
          have hok : contOk rest = true := by
            have := hc; simp only [Bool.and_eq_true] at this; exact this.2
          have hrest : rest.length ≤ g := by simp only [List.length_cons] at h; omega
          have hrest' : rest.length ≤ g' := by simp only [List.length_cons] at h'; omega
          have hlt : (splitLine rest).2.length < rest.length := splitLine_snd_lt hok
          simp only [hc]
          rw [ih (Nat.le_of_lt (Nat.lt_of_lt_of_le hlt hrest))
            (Nat.le_of_lt (Nat.lt_of_lt_of_le hlt hrest'))]

theorem capture_nil : capture [] = ([], []) := rfl

theorem capture_cons_not_nl {c : Char} {rest : List Char} (h : (c == '\n') = false) :
    capture (c :: rest) = ([], c :: rest) := by
  simp [capture, captureF, h]

theorem capture_cons_neg {rest : List Char} (h : contOk rest = false) :
    capture ('\n' :: rest) = ([], '\n' :: rest) := by
  simp [capture, captureF, h]

theorem capture_cons_pos {rest : List Char} (h : contOk rest = true) :
    capture ('\n' :: rest) =
      ('\n' :: ((splitLine rest).1 ++ (capture (splitLine rest).2).1),
        (capture (splitLine rest).2).2) := by
  have hfuel : (splitLine rest).2.length ≤ rest.length :=
    Nat.le_of_lt (splitLine_snd_lt h)
  simp only [capture, List.length_cons, captureF, beq_self_eq_true, h,
    Bool.and_self, Bool.true_and, if_true]
  rw [captureF_congr hfuel (Nat.le_refl _)]

theorem nlHead_tailOf (ls : List (List Char)) :
    nlHead ((ls.map (fun l => '\n' :: l)).flatten) := by
  cases ls with
  | nil => exact Or.inl rfl
  | cons l ls =>
    exact Or.inr ⟨l ++ (List.map (fun l => '\n' :: l) ls).flatten, by simp⟩

/-- Every capture output reconstructs its input, starts with a newline (or
is empty), and is itself a complete capture. -/
theorem capture_main :
    ∀ (n : Nat) (cs : List Char), cs.length ≤ n →
      cs = (capture cs).1 ++ (capture cs).2 ∧ nlHead (capture cs).1 ∧
        capture ((capture cs).1) = ((capture cs).1, []) := by
  intro n
  induction n with
  | zero =>
    intro cs h
    have : cs = [] := List.length_eq_zero.mp (Nat.le_zero.mp h)
    subst this
    exact ⟨rfl, Or.inl rfl, rfl⟩
  | succ m ih =>
    intro cs h
    cases cs with
    | nil => exact ⟨rfl, Or.inl rfl, rfl⟩
    | cons c rest =>
      by_cases hc : (c == '\n') = true
      · have hceq : c = '\n' := beq_iff_eq.mp hc
        subst hceq
        by_cases hok : contOk rest = true
        · -- the interesting branch: one line is consumed, then recursion
          have hsplit := splitLine_spec rest
          set l1 := (splitLine rest).1 with hl1
          set t := (splitLine rest).2 with ht
          have htlen : t.length ≤ m := by
            have h1 : t.length < rest.length := splitLine_snd_lt hok
            simp only [List.length_cons] at h
            omega
          obtain ⟨ihdec, ihnl, ihself⟩ := ih t htlen
          set m' := (capture t).1 with hm'
          set r' := (capture t).2 with hr'
          rw [capture_cons_pos hok]
          refine ⟨?_, Or.inr ⟨_, rfl⟩, ?_⟩
          · simp only [List.cons_append, List.append_assoc]
            rw [← ihdec]
            exact congrArg _ hsplit.1
          · have hok' : contOk (l1 ++ m') = true := by
              have e1 : contOk (l1 ++ t) = goodLine l1 :=
                contOk_append hsplit.2.1 hsplit.2.2
              have e2 : contOk (l1 ++ m') = goodLine l1 :=
                contOk_append hsplit.2.1 ihnl
              rw [e2, ← e1, ← hsplit.1]
              exact hok
            rw [capture_cons_pos hok', splitLine_append hsplit.2.1 ihnl]
            simp only [← hm', ← hr']
            rw [ihself]
        · rw [capture_cons_neg (Bool.eq_false_iff.mpr hok)]
          exact ⟨rfl, Or.inl rfl, rfl⟩
      · rw [capture_cons_not_nl (Bool.eq_false_iff.mpr hc)]
        exact ⟨rfl, Or.inl rfl, rfl⟩

theorem capture_suffix (cs : List Char) : cs = (capture cs).1 ++ (capture cs).2 :=
  (capture_main cs.length cs (Nat.le_refl _)).1

theorem capture_self (cs : List Char) :
    capture ((capture cs).1) = ((capture cs).1, []) :=
  (capture_main cs.length cs (Nat.le_refl _)).2.2

theorem capture_nlHead (cs : List Char) : nlHead (capture cs).1 :=
  (capture_main cs.length cs (Nat.le_refl _)).2.1

/-! ## Matching the pattern at one position -/

theorem isEmpty_false_of_ne_nil {l : List Char} (h : l ≠ []) : l.isEmpty = false := by
  cases l with
  | nil => exact absurd rfl h
  | cons _ _ => rfl

theorem splitLine_nlHead {t : List Char} (h : nlHead t) : splitLine t = ([], t) := by
  have := @splitLine_append [] t (by simp) h
  simpa using this

/-- Successful match: marker head, digits, closing literal, a non-empty
first description line, then the capture loop. -/
theorem tryMatch_build {num l0 t : List Char} (h1 : num ≠ [])
    (h2 : ∀ c ∈ num, c.isDigit = true) (h3 : l0 ≠ []) (h4 : '\n' ∉ l0)
    (h5 : nlHead t) :
    tryMatch (markerLit ++ (num ++ (closeLit ++ (l0 ++ t))))
      = some (num, l0 ++ (capture t).1, (capture t).2) := by
  have hd : digitSpan (num ++ (closeLit ++ (l0 ++ t))) = (num, closeLit ++ (l0 ++ t)) := by
    refine digitSpan_append h2 ?_
    intro c t' hct
    rw [show closeLit ++ (l0 ++ t) = ']' :: ('*' :: '*' :: ':' :: (l0 ++ t)) from rfl] at hct
    injection hct with hc _
    rw [← hc]; decide
  have hsp : splitLine (l0 ++ t) = (l0, t) := splitLine_append h4 h5
  have hn1 : num.isEmpty = false := isEmpty_false_of_ne_nil h1
  have hn2 : l0.isEmpty = false := isEmpty_false_of_ne_nil h3
  simp [tryMatch, dropLit_append, hd, hsp, hn1, hn2]

/-- A position whose head is not `*` can not start a match. -/
theorem tryMatch_not_star {c : Char} {cs : List Char} (h : c ≠ '*') :
    tryMatch (c :: cs) = none := by
  have hb : ('*' == c) = false := beq_eq_false_iff_ne.mpr (Ne.symm h)
  simp [tryMatch, markerLit, dropLit, hb]

theorem tryMatch_star_not_star {c : Char} {cs : List Char} (h : c ≠ '*') :
    tryMatch ('*' :: c :: cs) = none := by
  have hb : ('*' == c) = false := beq_eq_false_iff_ne.mpr (Ne.symm h)
  simp [tryMatch, markerLit, dropLit, hb]

theorem tryMatch_star_star_not_bracket {c : Char} {cs : List Char} (h : c ≠ '[') :
    tryMatch ('*' :: '*' :: c :: cs) = none := by
  have hb : ('[' == c) = false := beq_eq_false_iff_ne.mpr (Ne.symm h)
  simp [tryMatch, markerLit, dropLit, hb]

theorem tryMatch_nil : tryMatch [] = none := rfl

/-- A marker whose colon is followed by a newline or the end of input does
not match: `[^\n]+` needs at least one character on the marker's line. -/
theorem tryMatch_no_desc {num t : List Char} (h1 : num ≠ [])
    (h2 : ∀ c ∈ num, c.isDigit = true) (h5 : nlHead t) :
    tryMatch (markerLit ++ (num ++ (closeLit ++ t))) = none := by
  have hd : digitSpan (num ++ (closeLit ++ t)) = (num, closeLit ++ t) := by
    refine digitSpan_append h2 ?_
    intro c t' hct
    rw [show closeLit ++ t = ']' :: ('*' :: '*' :: ':' :: t) from rfl] at hct
    injection hct with hc _
    rw [← hc]; decide
  have hn1 : num.isEmpty = false := isEmpty_false_of_ne_nil h1
  simp [tryMatch, dropLit_append, hd, hn1, splitLine_nlHead h5]

/-- Every successful match consumes a non-empty span of the input, and that
span alone is a complete match with the same groups. -/
theorem tryMatch_decomp {cs n d rest : List Char}
    (h : tryMatch cs = some (n, d, rest)) :
    ∃ span, span ≠ [] ∧ cs = span ++ rest ∧ tryMatch span = some (n, d, []) := by
  cases hm : dropLit markerLit cs with
  | none => simp [tryMatch, hm] at h
  | some r1 =>
    obtain ⟨d1, d2, hds⟩ : ∃ a b, digitSpan r1 = (a, b) := ⟨_, _, rfl⟩
    obtain ⟨hr1, hdig⟩ := digitSpan_spec r1
    rw [hds] at hr1
    simp only [hds] at hdig
    by_cases he : d1.isEmpty
    · simp [tryMatch, hm, hds, he] at h
    · cases hcl : dropLit closeLit d2 with
      | none => simp [tryMatch, hm, hds, he, hcl] at h
      | some r3 =>
        obtain ⟨l0, t, hsl⟩ : ∃ a b, splitLine r3 = (a, b) := ⟨_, _, rfl⟩
        obtain ⟨hr3, hnl0, hnlt⟩ := splitLine_spec r3
        rw [hsl] at hr3
        simp only [hsl] at hnl0 hnlt
        by_cases he2 : l0.isEmpty
        · simp [tryMatch, hm, hds, he, hcl, hsl, he2] at h
        · obtain ⟨m, r', hcap⟩ : ∃ a b, capture t = (a, b) := ⟨_, _, rfl⟩
          have hts : t = m ++ r' := by
            have := capture_suffix t; rw [hcap] at this; exact this
          have hmh : nlHead m := by
            have := capture_nlHead t; rw [hcap] at this; exact this
          have hms : capture m = (m, []) := by
            have := capture_self t; rw [hcap] at this; exact this
          have h' : d1 = n ∧ l0 ++ m = d ∧ r' = rest := by
            simpa [tryMatch, hm, hds, he, hcl, hsl, he2, hcap] using h
          obtain ⟨rfl, rfl, rfl⟩ := h'
          refine ⟨markerLit ++ (d1 ++ (closeLit ++ (l0 ++ m))),
            by simp [markerLit], ?_, ?_⟩
          · rw [dropLit_eq_some hm, hr1, dropLit_eq_some hcl, hr3, hts]
            simp [List.append_assoc]
          · have hb := @tryMatch_build d1 l0 m
              (by intro hx; rw [hx] at he; exact he rfl)
              hdig (by intro hx; rw [hx] at he2; exact he2 rfl) hnl0 hmh
            rw [hms] at hb
            simpa using hb

/-! ## The substitution scan -/

theorem tryMatch_rest_le {c : Char} {cs n d rest : List Char}
    (h : tryMatch (c :: cs) = some (n, d, rest)) : rest.length ≤ cs.length := by
  obtain ⟨span, hne, hdec, -⟩ := tryMatch_decomp h
  cases span with
  | nil => exact absurd rfl hne
  | cons a s =>
    have := congrArg List.length hdec
    simp [List.length_append] at this
    omega

theorem scanF_congr (stem : List Char) {f f' : Nat} {cs : List Char}
    (h : cs.length ≤ f) (h' : cs.length ≤ f') :
    scanF stem f cs = scanF stem f' cs := by
  induction f generalizing f' cs with
  | zero =>
    have : cs = [] := List.length_eq_zero.mp (Nat.le_zero.mp h)
    subst this
    cases f' <;> simp [scanF]
  | succ g ih =>
    cases f' with
    | zero =>
      have : cs = [] := List.length_eq_zero.mp (Nat.le_zero.mp h')
      subst this; simp [scanF]
    | succ g' =>
      cases cs with
      | nil => simp [scanF]
      | cons c rest =>
        have hg : rest.length ≤ g := by simp only [List.length_cons] at h; omega
        have hg' : rest.length ≤ g' := by simp only [List.length_cons] at h'; omega
        cases hM : tryMatch (c :: rest) with
        | none => simp only [scanF, hM]; rw [ih hg hg']
        | some v =>
          obtain ⟨n, d, r⟩ := v
          have hr : r.length ≤ rest.length := tryMatch_rest_le hM
          simp only [scanF, hM]
          rw [ih (le_trans hr hg) (le_trans hr hg')]

theorem scan_nil (stem : List Char) : scan stem [] = ([], 0) := rfl

theorem scan_cons_none {c : Char} {cs : List Char} (stem : List Char)
    (h : tryMatch (c :: cs) = none) :
    scan stem (c :: cs) = (c :: (scan stem cs).1, (scan stem cs).2) := by
  simp only [scan, List.length_cons, scanF, h]

theorem scan_cons_some {c : Char} {cs n d rest : List Char} (stem : List Char)
    (h : tryMatch (c :: cs) = some (n, d, rest)) :
    scan stem (c :: cs) =
      (replacement stem n d ++ (scan stem rest).1, (scan stem rest).2 + 1) := by
  simp only [scan, List.length_cons, scanF, h]
  rw [scanF_congr stem (tryMatch_rest_le h) (Nat.le_refl _)]

/-! ## The classification table as the spec writes it -/

/-- Modelled from the spec: the ordered classification table of §4.1 step 3,
one row per subdirectory, each row a list of substring tokens. -/
def specTable : List (List String × String) :=
  [(["part1", "chapter1", "chapter2", "chapter3"], "part1-foundation"),
   (["part2", "chapter4", "chapter5", "chapter6", "chapter7"], "part2-configuration"),
   (["part3", "chapter8", "chapter9", "chapter10", "chapter11", "chapter12"],
     "part3-advanced"),
   (["part4", "chapter13", "chapter14"], "part4-operations"),
   (["part5", "chapter15", "chapter16", "chapter17", "chapter18"], "part5-development"),
   (["part6", "chapter19", "chapter20"], "part6-analysis"),
   (["part7", "chapter21", "chapter22"], "part7-vision"),
   (["appendix"], "appendices")]

/-- First-match-wins lookup over an ordered token table, defaulting to
`images`: §4.1 step 3 read literally. -/
def tableLookup : List (List String × String) → List Char → List Char
  | [], _ => "images".toList
  | (toks, lbl) :: rows, s =>
    if toks.any (fun t => hasSub t.toList s) then lbl.toList else tableLookup rows s

/-- Modelled from the spec: classification = first-match-wins over §4.1's table. -/
def classifySpec (stem : List Char) : List Char := tableLookup specTable stem

/-- C1: the subdirectory is chosen by first-match-wins ordered
substring-containment tests over the fixed table of §4.1 step 3, and in
particular `chapter10` (containing `chapter1`) classifies as
`part1-foundation`, not `part3-advanced`. -/
theorem classify_matches_spec_table :
    (∀ stem : List Char, classify stem = classifySpec stem) ∧
      classify "chapter10".toList = "part1-foundation".toList := by
  constructor
  · intro stem
    simp [classifySpec, specTable, tableLookup, classify, Bool.or_assoc]
  · rfl

/-! ## Alt text -/

/-- The combined per-character substitution performed on the truncated
description: newline to space, double quote to single quote. -/
def normChar (c : Char) : Char :=
  if c = '\n' then ' ' else if c = '\"' then '\'' else c

/-- C3: the alt text is the first 100 characters of the trimmed description
with newlines replaced by spaces and double quotes by single quotes; a
trimmed description longer than 100 characters yields alt text of exactly
100 characters, free of newlines and double quotes. -/
theorem altText_truncation (ptext : List Char) :
    altText ptext = (ptext.take 100).map normChar ∧
      (100 < ptext.length → (altText ptext).length = 100) ∧
      '\n' ∉ altText ptext ∧ '\"' ∉ altText ptext := by
  refine ⟨?_, ?_, ?_, ?_⟩
  · simp only [altText, replChar, List.map_map]
    refine List.map_congr_left ?_
    intro c _
    simp only [Function.comp_apply, normChar]
    by_cases h1 : c = '\n'
    · subst h1; simp
    · by_cases h2 : c = '\"'
      · subst h2; simp
      · simp [h1, h2]
  · intro h
    simp only [altText, replChar, List.length_map, List.length_take]
    omega
  · intro hmem
    simp only [altText, replChar, List.map_map, List.mem_map] at hmem
    obtain ⟨c, -, hc⟩ := hmem
    simp only [Function.comp_apply] at hc
    by_cases h1 : c = '\n' <;> by_cases h2 : c = '\"' <;> simp [h1, h2] at hc
  · intro hmem
    simp only [altText, replChar, List.map_map, List.mem_map] at hmem
    obtain ⟨c, -, hc⟩ := hmem
    simp only [Function.comp_apply] at hc
    by_cases h1 : c = '\n' <;> by_cases h2 : c = '\"' <;> simp [h1, h2] at hc

/-- Witness for C3 at a concrete 150-character description. -/
theorem altText_truncation_witness :
    100 < (List.replicate 150 'q').length ∧
      (altText (List.replicate 150 'q')).length = 100 :=
  ⟨by decide, (altText_truncation (List.replicate 150 'q')).2.1 (by decide)⟩

/-! ## Scenario A -/

/-- C4: on `**[IMAGE PROMPT 1]**: A sunset over mountains` in a file with
stem `chapter1`, the marker is replaced by the image embed, a blank line and
the figure caption, with replacement count 1. -/
theorem scenario_A :
    scan "chapter1".toList "**[IMAGE PROMPT 1]**: A sunset over mountains".toList =
      (("![A sunset over mountains](images/part1-foundation/chapter1-1.png)\n\n"
        ++ "*Figure 1: A sunset over mountains...*").toList, 1) := by
  decide

/-! ## The multi-line description capture, line by line -/

/-- Content made of newline-separated lines following the marker's own
line: one `'\n'` before each line. -/
def tailOf (ls : List (List Char)) : List Char :=
  (ls.map (fun l => '\n' :: l)).flatten

theorem tailOf_nlHead (ls : List (List Char)) : nlHead (tailOf ls) :=
  nlHead_tailOf ls

theorem capture_tailOf (ls : List (List Char)) (h : ∀ l ∈ ls, '\n' ∉ l) :
    capture (tailOf ls) =
      (tailOf (ls.takeWhile goodLine), tailOf (ls.dropWhile goodLine)) := by
  induction ls with
  | nil => simp [tailOf, capture_nil]
  | cons l ls ih =>
    have hnl : '\n' ∉ l := h l (List.mem_cons_self l ls)
    have hrec : ∀ x ∈ ls, '\n' ∉ x := fun x hx => h x (List.mem_cons_of_mem l hx)
    have hok : contOk (l ++ tailOf ls) = goodLine l :=
      contOk_append hnl (tailOf_nlHead ls)
    show capture ('\n' :: (l ++ tailOf ls)) = _
    cases hg : goodLine l with
    | false =>
      rw [capture_cons_neg (by rw [hok, hg])]
      simp [List.takeWhile_cons, List.dropWhile_cons, hg, tailOf]
    | true =>
      rw [capture_cons_pos (by rw [hok, hg]), splitLine_append hnl (tailOf_nlHead ls),
        ih hrec]
      simp [List.takeWhile_cons, List.dropWhile_cons, hg, tailOf]

/-- C2: the captured description is the remainder of the marker's line
after the colon plus exactly the following lines that are non-blank and do
not begin with `##` or `**[`; the capture stops at the first blank,
heading, or marker line.  The concrete two-line instance confirms that a
multi-line description is captured in full, trimmed, and fed into the alt
text. -/
theorem description_capture_spec :
    (∀ (num l0 : List Char) (ls : List (List Char)),
      num ≠ [] → (∀ c ∈ num, c.isDigit = true) → l0 ≠ [] → '\n' ∉ l0 →
      (∀ l ∈ ls, '\n' ∉ l) →
      tryMatch (markerLit ++ (num ++ (closeLit ++ (l0 ++ tailOf ls))))
        = some (num, l0 ++ tailOf (ls.takeWhile goodLine),
            tailOf (ls.dropWhile goodLine))) ∧
    scan "x".toList "**[IMAGE PROMPT 2]**: first line\nsecond line".toList
      = (("![first line second line](images/images/x-2.png)\n\n"
          ++ "*Figure 2: first line second line...*").toList, 1) := by
  constructor
  · intro num l0 ls h1 h2 h3 h4 h5
    rw [tryMatch_build h1 h2 h3 h4 (tailOf_nlHead ls), capture_tailOf ls h5]
  · decide

/-- Witness for C2: a marker line followed by a good line, a blank line and
a further line; the capture takes exactly the first continuation line. -/
theorem description_capture_spec_witness :
    tryMatch (markerLit ++ ("12".toList ++ (closeLit ++
        (" one".toList ++ tailOf ["two".toList, [], "three".toList]))))
      = some ("12".toList, " one".toList ++ tailOf ["two".toList],
          tailOf [[], "three".toList]) := by
  rw [description_capture_spec.1 "12".toList " one".toList
    ["two".toList, [], "three".toList]
    (by decide) (by decide) (by decide) (by decide) (by decide)]
  decide

/-! ## The ordinal is never parsed -/

/-- C8: the matched digit string is carried verbatim (never parsed as a
number) into both the image path `images/<subdir>/<stem>-<N>.png` and the
caption `Figure <N>: ...`. -/
theorem ordinal_verbatim (stem num desc : List Char) (h1 : num ≠ [])
    (h2 : ∀ c ∈ num, c.isDigit = true) (h3 : desc ≠ []) (h4 : '\n' ∉ desc) :
    scan stem (markerLit ++ (num ++ (closeLit ++ desc)))
      = (replacement stem num desc, 1) ∧
    replacement stem num desc =
      "![".toList ++ altText (pyStrip desc) ++ "](images/".toList ++ classify stem
        ++ "/".toList ++ stem ++ "-".toList ++ num ++ ".png)\n\n*Figure ".toList
        ++ num ++ ": ".toList ++ altText (pyStrip desc) ++ "...*".toList := by
  constructor
  · have hb := @tryMatch_build num desc [] h1 h2 h3 h4 (Or.inl rfl)
    rw [capture_nil] at hb
    simp only [List.append_nil] at hb
    have hb' : tryMatch ('*' :: '*' :: '[' :: 'I' :: 'M' :: 'A' :: 'G' :: 'E' :: ' ' ::
        'P' :: 'R' :: 'O' :: 'M' :: 'P' :: 'T' :: ' ' :: (num ++ (closeLit ++ desc)))
        = some (num, desc, []) := hb
    have := scan_cons_some stem hb'
    rw [show (markerLit ++ (num ++ (closeLit ++ desc)) : List Char)
      = '*' :: ('*' :: '[' :: 'I' :: 'M' :: 'A' :: 'G' :: 'E' :: ' ' :: 'P' :: 'R' ::
        'O' :: 'M' :: 'P' :: 'T' :: ' ' :: (num ++ (closeLit ++ desc))) from rfl]
    rw [this, scan_nil]
    simp
  · simp [replacement, List.append_assoc]

/-- Witness for C8: ordinal `007` keeps its leading zeros in both the path
and the caption. -/
theorem ordinal_verbatim_witness :
    scan "chapter9".toList (markerLit ++ ("007".toList ++ (closeLit ++ " A map".toList)))
      = (("![A map](images/part3-advanced/chapter9-007.png)\n\n"
          ++ "*Figure 007: A map...*").toList, 1) := by
  rw [(ordinal_verbatim "chapter9".toList "007".toList " A map".toList
    (by decide) (by decide) (by decide) (by decide)).1]
  decide

/-! ## A marker with an empty description line -/

theorem scan_closeLit (stem rest : List Char) :
    scan stem (closeLit ++ rest) = (closeLit ++ (scan stem rest).1, (scan stem rest).2) := by
  show scan stem (']' :: '*' :: '*' :: ':' :: rest) = _
  rw [scan_cons_none stem (tryMatch_not_star (by decide)),
    scan_cons_none stem (tryMatch_star_star_not_bracket (by decide)),
    scan_cons_none stem (tryMatch_star_not_star (by decide)),
    scan_cons_none stem (tryMatch_not_star (by decide))]
  rfl

theorem scan_digits (stem : List Char) {num : List Char}
    (h : ∀ c ∈ num, c.isDigit = true) (rest : List Char) :
    scan stem (num ++ rest) = (num ++ (scan stem rest).1, (scan stem rest).2) := by
  induction num with
  | nil => simp
  | cons c cs ih =>
    have hc : c ≠ '*' := by
      intro hx
      have := h c (List.mem_cons_self c cs)
      rw [hx] at this
      exact absurd this (by decide)
    rw [List.cons_append, scan_cons_none stem (tryMatch_not_star hc),
      ih fun x hx => h x (List.mem_cons_of_mem c hx)]
    rfl

/-- No position inside a descriptionless marker can start a match, so the
scan walks straight through it. -/
theorem scan_skip_bad_marker (stem : List Char) {num rest : List Char}
    (h1 : num ≠ []) (h2 : ∀ c ∈ num, c.isDigit = true) (h5 : nlHead rest) :
    scan stem (markerLit ++ (num ++ (closeLit ++ rest)))
      = (markerLit ++ (num ++ (closeLit ++ (scan stem rest).1)), (scan stem rest).2) := by
  have h0 : tryMatch ('*' :: '*' :: '[' :: 'I' :: 'M' :: 'A' :: 'G' :: 'E' :: ' ' ::
      'P' :: 'R' :: 'O' :: 'M' :: 'P' :: 'T' :: ' ' :: (num ++ (closeLit ++ rest)))
      = none :=
    tryMatch_no_desc h1 h2 h5
  show scan stem ('*' :: '*' :: '[' :: 'I' :: 'M' :: 'A' :: 'G' :: 'E' :: ' ' :: 'P' ::
    'R' :: 'O' :: 'M' :: 'P' :: 'T' :: ' ' :: (num ++ (closeLit ++ rest))) = _
  rw [scan_cons_none stem h0,
    scan_cons_none stem (tryMatch_star_not_star (by decide)),
    scan_cons_none stem (tryMatch_not_star (by decide)),
    scan_cons_none stem (tryMatch_not_star (by decide)),
    scan_cons_none stem (tryMatch_not_star (by decide)),
    scan_cons_none stem (tryMatch_not_star (by decide)),
    scan_cons_none stem (tryMatch_not_star (by decide)),
    scan_cons_none stem (tryMatch_not_star (by decide)),
    scan_cons_none stem (tryMatch_not_star (by decide)),
    scan_cons_none stem (tryMatch_not_star (by decide)),
    scan_cons_none stem (tryMatch_not_star (by decide)),
    scan_cons_none stem (tryMatch_not_star (by decide)),
    scan_cons_none stem (tryMatch_not_star (by decide)),
    scan_cons_none stem (tryMatch_not_star (by decide)),
    scan_cons_none stem (tryMatch_not_star (by decide)),
    scan_cons_none stem (tryMatch_not_star (by decide)),
    scan_digits stem h2, scan_closeLit stem rest]
  rfl

/-- C10: a prompt marker whose colon is immediately followed by the end of
the line does not match: the occurrence is left verbatim in the output and
contributes nothing to the count, whatever lines follow. -/
theorem empty_description_marker_unmatched (stem num rest : List Char)
    (h1 : num ≠ []) (h2 : ∀ c ∈ num, c.isDigit = true) (h5 : nlHead rest) :
    tryMatch (markerLit ++ (num ++ (closeLit ++ rest))) = none ∧
    scan stem (markerLit ++ (num ++ (closeLit ++ rest)))
      = (markerLit ++ (num ++ (closeLit ++ (scan stem rest).1)), (scan stem rest).2) :=
  ⟨tryMatch_no_desc h1 h2 h5, scan_skip_bad_marker stem h1 h2 h5⟩

/-- Witness for C10: `**[IMAGE PROMPT 1]**:` directly followed by a newline
and a non-blank line stays unchanged, with replacement count 0. -/
theorem empty_description_marker_unmatched_witness :
    scan "x".toList "**[IMAGE PROMPT 1]**:\nSome description line".toList
      = ("**[IMAGE PROMPT 1]**:\nSome description line".toList, 0) := by
  have h := (empty_description_marker_unmatched "x".toList "1".toList
    "\nSome description line".toList (by decide) (by decide)
    (Or.inr ⟨"Some description line".toList, rfl⟩)).2
  rw [show ("**[IMAGE PROMPT 1]**:\nSome description line".toList : List Char)
    = markerLit ++ ("1".toList ++ (closeLit ++ "\nSome description line".toList))
    from rfl, h]
  decide

/-! ## The scan as a decomposition into untouched characters and matched spans -/

/-- One segment of the substitution decomposition: either a literal
character no match covers, or one matched marker span. -/
inductive Seg
  | raw (c : Char)
  | rep (num desc span : List Char)

/-- The original text a segment stands for. -/
def segOrig : Seg → List Char
  | .raw c => [c]
  | .rep _ _ span => span

/-- The output text a segment produces. -/
def segOut (stem : List Char) : Seg → List Char
  | .raw c => [c]
  | .rep num desc _ => replacement stem num desc

/-- Whether a segment is a replaced marker span. -/
def isRep : Seg → Bool
  | .raw _ => false
  | .rep _ _ _ => true

theorem subn_decomp_aux :
    ∀ (k : Nat) (cs : List Char) (stem : List Char), cs.length ≤ k →
      ∃ segs : List Seg,
        (segs.map segOrig).flatten = cs ∧
        (segs.map (segOut stem)).flatten = (scan stem cs).1 ∧
        (segs.filter isRep).length = (scan stem cs).2 ∧
        ∀ s ∈ segs, ∀ num desc span, s = Seg.rep num desc span →
          tryMatch span = some (num, desc, []) := by
  intro k
  induction k with
  | zero =>
    intro cs stem h
    have : cs = [] := List.length_eq_zero.mp (Nat.le_zero.mp h)
    subst this
    exact ⟨[], rfl, rfl, rfl, by simp⟩
  | succ k ih =>
    intro cs stem h
    cases cs with
    | nil => exact ⟨[], rfl, rfl, rfl, by simp⟩
    | cons c cs' =>
      have hlen : cs'.length ≤ k := by simp only [List.length_cons] at h; omega
      cases hM : tryMatch (c :: cs') with
      | none =>
        obtain ⟨segs, ho, hu, hn, hs⟩ := ih cs' stem hlen
        refine ⟨Seg.raw c :: segs, ?_, ?_, ?_, ?_⟩
        · simp [segOrig, ho]
        · rw [scan_cons_none stem hM]
          simp [segOut, hu]
        · rw [scan_cons_none stem hM]
          simp [isRep, hn]
        · intro s hs' num desc span heq
          rcases List.mem_cons.mp hs' with h' | h'
          · rw [h'] at heq; cases heq
          · exact hs s h' num desc span heq
      | some v =>
        obtain ⟨n, d, r⟩ := v
        obtain ⟨span, hne, hdec, hspan⟩ := tryMatch_decomp hM
        have hr : r.length ≤ k := le_trans (tryMatch_rest_le hM) hlen
        obtain ⟨segs, ho, hu, hn, hs⟩ := ih r stem hr
        refine ⟨Seg.rep n d span :: segs, ?_, ?_, ?_, ?_⟩
        · simp [segOrig, ho, ← hdec]
        · rw [scan_cons_some stem hM]
          simp [segOut, hu]
        · rw [scan_cons_some stem hM]
          simp [isRep, hn]
        · intro s hs' num desc sp heq
          rcases List.mem_cons.mp hs' with h' | h'
          · rw [h'] at heq
            cases heq
            exact hspan
          · exact hs s h' num desc sp heq

/-- C5: the scan decomposes its input into untouched characters and
disjoint matched marker spans, in order; the output is the same
decomposition with every matched span replaced by its replacement block,
and the returned count is exactly the number of matched spans. -/
theorem subn_decomposition (stem cs : List Char) :
    ∃ segs : List Seg,
      (segs.map segOrig).flatten = cs ∧
      (segs.map (segOut stem)).flatten = (scan stem cs).1 ∧
      (segs.filter isRep).length = (scan stem cs).2 ∧
      ∀ s ∈ segs, ∀ num desc span, s = Seg.rep num desc span →
        tryMatch span = some (num, desc, []) :=
  subn_decomp_aux cs.length cs stem (Nat.le_refl _)

/-! ## The file driver -/

/-- `pathlib.Path(...).stem`: the file name without its final suffix (a
leading dot or a trailing dot does not start a suffix). -/
def stemOf (name : String) : String :=
  match name.toList.reverse with
  | [] => name
  | c :: r0 =>
    if c == '.' then name
    else
      match (c :: r0).dropWhile (fun x => !(x == '.')) with
      | [] => name
      | [_] => name
      | _ :: more => String.mk more.reverse

/-- `update_markdown_file`: run the substitution on one file's content and
rewrite the file only when something was replaced and dry-run is off.
Returns the file's resulting on-disk content and the returned count. -/
def update_markdown_file (dry_run : Bool) (name content : String) : String × Nat :=
  let r := scan (stemOf name).toList content.toList
  if r.2 > 0 then (if dry_run then content else String.mk r.1, r.2)
  else (content, 0)

/-- `'--dry-run' in sys.argv or '-n' in sys.argv`. -/
def parseDryRun (args : List String) : Bool :=
  args.contains "--dry-run" || args.contains "-n"

/-- Driver state: the directory contents after the files processed so far,
the two counters of `main`, and the names handed to the Replacer in order. -/
structure RunState where
  disk : List (String × String)
  files_updated : Nat
  total_replaced : Nat
  log : List String
deriving DecidableEq

/-- One iteration of `main`'s loop over the sorted markdown files. -/
def mainStep (dry_run : Bool) (st : RunState) (file : String × String) : RunState :=
  if file.1 = "README.md" then { st with disk := st.disk ++ [file] }
  else
    let r := update_markdown_file dry_run file.1 file.2
    { disk := st.disk ++ [(file.1, r.1)]
      files_updated := st.files_updated + (if r.2 > 0 then 1 else 0)
      total_replaced := st.total_replaced + (if r.2 > 0 then r.2 else 0)
      log := st.log ++ [file.1] }

/-- `sorted(ebook_dir.glob('*.md'))`: the directory's markdown files in
lexicographic name order. -/
def sortByName (files : List (String × String)) : List (String × String) :=
  files.mergeSort (fun a b => decide (a.1 ≤ b.1))

/-- `main`: fold the per-file step over the sorted directory listing. -/
def runMain (dry_run : Bool) (files : List (String × String)) : RunState :=
  (sortByName files).foldl (mainStep dry_run) ⟨[], 0, 0, []⟩

/-- Whether some position of the content starts a pattern match. -/
def containsMarker : List Char → Bool
  | [] => (tryMatch []).isSome
  | c :: cs => (tryMatch (c :: cs)).isSome || containsMarker cs

theorem scan_of_not_containsMarker {cs : List Char} (stem : List Char)
    (h : containsMarker cs = false) : scan stem cs = (cs, 0) := by
  induction cs with
  | nil => rfl
  | cons c cs ih =>
    rw [containsMarker, Bool.or_eq_false_iff] at h
    cases hM : tryMatch (c :: cs) with
    | some v => rw [hM] at h; simp at h
    | none => rw [scan_cons_none stem hM, ih h.2]

theorem update_markdown_file_snd (dry_run : Bool) (name content : String) :
    (update_markdown_file dry_run name content).2
      = (scan (stemOf name).toList content.toList).2 := by
  simp only [update_markdown_file]
  split
  · rfl
  · next h => omega

/-- The on-disk result of the run for one file. -/
def procFile (dry_run : Bool) (f : String × String) : String × String :=
  if f.1 = "README.md" then f
  else (f.1, (update_markdown_file dry_run f.1 f.2).1)

/-- The substitution count of one file's content. -/
def fileCount (f : String × String) : Nat :=
  (scan (stemOf f.1).toList f.2.toList).2

/-- How many non-README files of the list get a positive count. -/
def countNew : List (String × String) → Nat
  | [] => 0
  | f :: l =>
    (if f.1 = "README.md" then 0 else if 0 < fileCount f then 1 else 0) + countNew l

/-- Total substitutions over the non-README files of the list. -/
def totalNew : List (String × String) → Nat
  | [] => 0
  | f :: l => (if f.1 = "README.md" then 0 else fileCount f) + totalNew l

theorem foldl_mainStep (dry_run : Bool) :
    ∀ (l : List (String × String)) (st : RunState),
      l.foldl (mainStep dry_run) st =
        ⟨st.disk ++ l.map (procFile dry_run),
         st.files_updated + countNew l,
         st.total_replaced + totalNew l,
         st.log ++ (l.map Prod.fst).filter (fun n => !(n == "README.md"))⟩ := by
  intro l
  induction l with
  | nil =>
    intro st
    cases st
    simp [countNew, totalNew]
  | cons f l ih =>
    intro st
    rw [List.foldl_cons, ih]
    by_cases hf : f.1 = "README.md"
    · simp only [mainStep, hf, if_true, countNew, totalNew, List.map_cons,
        List.filter_cons, procFile]
      refine RunState.mk.injEq .. ▸ ⟨?_, ?_, ?_, ?_⟩ <;> simp [hf]
    · simp only [mainStep, hf, if_false, countNew, totalNew, List.map_cons,
        List.filter_cons, procFile]
      refine RunState.mk.injEq .. ▸ ⟨?_, ?_, ?_, ?_⟩
      · simp [hf]
      · simp [hf, update_markdown_file_snd, fileCount]
        omega
      · simp [hf, update_markdown_file_snd, fileCount]
        split_ifs <;> omega
      · simp [hf]

/-- In dry-run mode the stored content of every file is untouched. -/
theorem procFile_true (f : String × String) : procFile true f = f := by
  by_cases h : f.1 = "README.md"
  · simp [procFile, h]
  · simp only [procFile, h, if_false, update_markdown_file]
    split <;> simp

/-! ## Claims about the driver -/

/-- C6: on content with no prompt marker the Replacer returns count 0 and
the identical content; the file keeps its content on disk and neither
driver counter moves. -/
theorem no_marker_no_change (dry_run : Bool) (name content : String)
    (st : RunState) (h : containsMarker content.toList = false) :
    update_markdown_file dry_run name content = (content, 0) ∧
    (name ≠ "README.md" →
      mainStep dry_run st (name, content) =
        ⟨st.disk ++ [(name, content)], st.files_updated, st.total_replaced,
          st.log ++ [name]⟩) := by
  have hupd : update_markdown_file dry_run name content = (content, 0) := by
    unfold update_markdown_file
    rw [scan_of_not_containsMarker _ h]
    simp
  refine ⟨hupd, fun hn => ?_⟩
  simp [mainStep, hn, hupd]

/-- Witness for C6 on a concrete marker-free file. -/
theorem no_marker_no_change_witness :
    containsMarker "No images here.".toList = false ∧
    update_markdown_file false "chapter2.md" "No images here." = ("No images here.", 0) :=
  ⟨by decide, (no_marker_no_change false "chapter2.md" "No images here."
      ⟨[], 0, 0, []⟩ (by decide)).1⟩

/-- C7: dry-run mode is selected exactly by `--dry-run` or `-n`; under it
no file content changes, while both reported counters are those a normal
run would apply. -/
theorem dry_run_mode (args : List String) (files : List (String × String)) :
    (parseDryRun args = true ↔ "--dry-run" ∈ args ∨ "-n" ∈ args) ∧
    (runMain true files).disk = sortByName files ∧
    (runMain true files).files_updated = (runMain false files).files_updated ∧
    (runMain true files).total_replaced = (runMain false files).total_replaced := by
  refine ⟨?_, ?_, ?_, ?_⟩
  · simp [parseDryRun, List.contains, List.elem_iff]
  · rw [runMain, foldl_mainStep]
    show List.map (procFile true) (sortByName files) = sortByName files
    have hid : ∀ f ∈ sortByName files, procFile true f = id f :=
      fun f _ => procFile_true f
    rw [List.map_congr_left hid, List.map_id]
  · rw [runMain, runMain, foldl_mainStep, foldl_mainStep]
  · rw [runMain, runMain, foldl_mainStep, foldl_mainStep]

/-- C9: `README.md` is never handed to the Replacer, keeps its content
whatever it is, and is invisible to both counters; every other file is
processed once, in lexicographic name order (the processing order is the
`≤`-sorted permutation of the directory listing). -/
theorem readme_skipped_and_sorted (dry_run : Bool) (files : List (String × String)) :
    (runMain dry_run files).log
      = ((sortByName files).map Prod.fst).filter (fun n => !(n == "README.md")) ∧
    (runMain dry_run files).disk = (sortByName files).map (procFile dry_run) ∧
    (∀ c : String, procFile dry_run ("README.md", c) = ("README.md", c)) ∧
    (runMain dry_run files).files_updated = countNew (sortByName files) ∧
    (runMain dry_run files).total_replaced = totalNew (sortByName files) ∧
    (sortByName files).Pairwise (fun a b => a.1 ≤ b.1) ∧
    (sortByName files).Perm files := by
  refine ⟨?_, ?_, ?_, ?_, ?_, ?_, ?_⟩
  · rw [runMain, foldl_mainStep]; rfl
  · rw [runMain, foldl_mainStep]; rfl
  · intro c; simp [procFile]
  · rw [runMain, foldl_mainStep]; simp
  · rw [runMain, foldl_mainStep]; simp
  · have := @List.sorted_mergeSort (String × String)
      (fun a b => decide (a.1 ≤ b.1))
      (fun a b c hab hbc => by
        simp only [decide_eq_true_eq] at *
        exact le_trans hab hbc)
      (fun a b => by
        rcases le_total a.1 b.1 with h | h <;> simp [h])
      files
    exact this.imp (by simp)
  · exact List.mergeSort_perm files _

end ImgRef
